import Mathlib

/-!
Verification development for the mdflc markdown live server
(shallow embedding of `src/lib.rs`).

Rust strings are modelled as `List Char`; paths are modelled as their
textual form with `/` separators.  Fallible operations return `Option`
or `Except`.  The filesystem is modelled as a record of functions
(`isFile`, `readFile`, `canonicalize`), and the markdown renderer
(pulldown-cmark, an external crate) is a parameter `render`.
-/

/-- Rust `str::strip_prefix` on `List Char`: returns the remainder when
the first argument is a prefix of the second, `none` otherwise. -/
def stripPre : List Char → List Char → Option (List Char)
  | [], l => some l
  | _ :: _, [] => none
  | p :: ps, c :: cs => if p = c then stripPre ps cs else none

/-- Rust `str::strip_suffix` on `List Char`. -/
def stripSuf (suf l : List Char) : Option (List Char) :=
  (stripPre suf.reverse l.reverse).map List.reverse

theorem stripPre_eq_some {pre l r : List Char} :
    stripPre pre l = some r ↔ l = pre ++ r := by
  induction pre generalizing l with
  | nil => simp [stripPre]
  | cons p ps ih =>
    cases l with
    | nil => simp [stripPre]
    | cons c cs =>
      by_cases h : p = c
      · subst h
        simp [stripPre, ih]
      · simp [stripPre, h, Ne.symm h]

theorem stripPre_append (pre r : List Char) : stripPre pre (pre ++ r) = some r :=
  stripPre_eq_some.mpr rfl

theorem stripSuf_eq_some {suf l r : List Char} :
    stripSuf suf l = some r ↔ l = r ++ suf := by
  unfold stripSuf
  constructor
  · intro h
    rcases Option.map_eq_some'.mp h with ⟨r', hr', hrev⟩
    have := stripPre_eq_some.mp hr'
    subst hrev
    have : l.reverse.reverse = (suf.reverse ++ r').reverse := by rw [this]
    simpa using this
  · intro h
    subst h
    have : (r ++ suf).reverse = suf.reverse ++ r.reverse := by simp
    rw [this, stripPre_append]
    simp

theorem stripSuf_append (r suf : List Char) : stripSuf suf (r ++ suf) = some r :=
  stripSuf_eq_some.mpr rfl

theorem stripSuf_eq_none {suf l : List Char} :
    stripSuf suf l = none ↔ ∀ r, l ≠ r ++ suf := by
  constructor
  · intro h r hl
    rw [hl, stripSuf_append] at h
    exact Option.noConfusion h
  · intro h
    cases hs : stripSuf suf l with
    | none => rfl
    | some r => exact absurd (stripSuf_eq_some.mp hs) (h r)

/-- First step of `clean_url`: `url.strip_prefix('/').unwrap_or(url)`. -/
def dropSlash (l : List Char) : List Char :=
  match l with
  | c :: r => if c = '/' then r else l
  | [] => l

/-- Second step of `clean_url`: `url.strip_suffix(".md").unwrap_or(url)`. -/
def dropMd (l : List Char) : List Char :=
  match stripSuf ".md".toList l with
  | some r => r
  | none => l

/-- `clean_url` from `src/lib.rs`: strip one leading `/`, then one
trailing `.md`, leaving the string unchanged when either is absent. -/
def clean_url (url : List Char) : List Char :=
  dropMd (dropSlash url)

theorem dropSlash_cons_slash (r : List Char) : dropSlash ('/' :: r) = r := by
  simp [dropSlash]

theorem dropSlash_of_not_slash {l : List Char} (h : ∀ r, l ≠ '/' :: r) :
    dropSlash l = l := by
  cases l with
  | nil => rfl
  | cons c r =>
    have hc : c ≠ '/' := fun he => h r (by rw [he])
    simp [dropSlash, hc]

theorem dropMd_append (r : List Char) : dropMd (r ++ ".md".toList) = r := by
  simp [dropMd, stripSuf_append]

theorem dropMd_of_no_suffix {l : List Char} (h : ∀ r, l ≠ r ++ ".md".toList) :
    dropMd l = l := by
  unfold dropMd
  rw [stripSuf_eq_none.mpr h]

/-- Claim C8: `clean_url` is a total function that strips at most one
leading `/` and at most one trailing `.md` suffix, and returns the input
unchanged when the prefix or suffix is absent. -/
theorem clean_url_total (s : List Char) :
    ∃ t, ((∃ r, s = '/' :: r ∧ t = r) ∨ ((∀ r, s ≠ '/' :: r) ∧ t = s)) ∧
      ((∃ u, t = u ++ ".md".toList ∧ clean_url s = u) ∨
        ((∀ u, t ≠ u ++ ".md".toList) ∧ clean_url s = t)) := by
  refine ⟨dropSlash s, ?_, ?_⟩
  · cases s with
    | nil => exact Or.inr ⟨fun r h => List.noConfusion h, rfl⟩
    | cons c r =>
      by_cases hc : c = '/'
      · subst hc
        exact Or.inl ⟨r, rfl, dropSlash_cons_slash r⟩
      · refine Or.inr ⟨?_, by simp [dropSlash, hc]⟩
        intro r' h
        injection h with h1 h2
        exact hc h1
  · cases hs : stripSuf ".md".toList (dropSlash s) with
    | some u =>
      refine Or.inl ⟨u, stripSuf_eq_some.mp hs, ?_⟩
      unfold clean_url dropMd
      rw [hs]
    | none =>
      refine Or.inr ⟨stripSuf_eq_none.mp hs, ?_⟩
      unfold clean_url dropMd
      rw [hs]

/-- `root.join(p)` for a relative `p`, in textual form. -/
def joinSub (root p : List Char) : List Char := root ++ '/' :: p

/-- `Path::strip_prefix(root)` for a strict descendant, in textual form:
removes the root and the separator that follows it. -/
def relOf (root path : List Char) : Option (List Char) :=
  stripPre (root ++ ['/']) path

/-- Filesystem-side key derivation used by `Api::file_update`:
strip the root prefix, then normalize with `clean_url`. -/
def pathToKey (root path : List Char) : Option (List Char) :=
  (relOf root path).map clean_url

theorem relOf_joinSub (root p : List Char) : relOf root (joinSub root p) = some p := by
  have h : joinSub root p = (root ++ ['/']) ++ p := by simp [joinSub]
  rw [relOf, h, stripPre_append]

/-- Claim C4 (amended): for every relative path `p` that does not begin
with `/` and does not itself end in `.md`, URL-side derivation of
`"/" ++ p ++ ".md"` agrees with filesystem-side derivation of
`root/p` for any root. -/
theorem key_derivation_agree (root p : List Char)
    (h1 : ∀ r, p ≠ '/' :: r) (h2 : ∀ u, p ≠ u ++ ".md".toList) :
    pathToKey root (joinSub root p) = some (clean_url ('/' :: (p ++ ".md".toList))) := by
  have hclean : clean_url p = p := by
    rw [clean_url, dropSlash_of_not_slash h1, dropMd_of_no_suffix h2]
  have hurl : clean_url ('/' :: (p ++ ".md".toList)) = p := by
    rw [clean_url, dropSlash_cons_slash, dropMd_append]
  rw [pathToKey, relOf_joinSub, Option.map_some', hclean, hurl]

/-- Witness for C4: the amended statement holds at `root = "r"`, `p = "a"`. -/
theorem key_derivation_agree_witness :
    pathToKey "r".toList (joinSub "r".toList "a".toList) =
      some (clean_url ('/' :: ("a".toList ++ ".md".toList))) := by
  apply key_derivation_agree
  · intro r h
    injection h with h1 h2
    exact absurd h1 (by decide)
  · intro u h
    have hl := congrArg List.length h
    simp [List.length_append] at hl

/-- Counterexample for C4 as stated: for the valid relative path
`p = "a.md"`, the two derivations disagree (`"a"` versus `"a.md"`). -/
theorem key_derivation_cex :
    pathToKey "r".toList (joinSub "r".toList "a.md".toList) ≠
      some (clean_url ('/' :: ("a.md".toList ++ ".md".toList))) := by
  decide

/-! ## Content store (`MdFiles`, a `DashMap<String, String>`) -/

/-- The content store, modelled as an association list from route keys
to rendered documents. -/
abbrev Store := List (List Char × List Char)

/-- `DashMap::get`. -/
def lookupKV : Store → List Char → Option (List Char)
  | [], _ => none
  | (k, v) :: rest, key => if k = key then some v else lookupKV rest key

/-- `DashMap::insert`: replaces the entry for an existing key, otherwise
appends a new entry. -/
def insertKV : Store → List Char → List Char → Store
  | [], k, v => [(k, v)]
  | (k', v') :: rest, k, v =>
    if k' = k then (k, v) :: rest else (k', v') :: insertKV rest k v

theorem mem_insertKV {st : Store} {k' v' k v : List Char}
    (h : (k, v) ∈ insertKV st k' v') : (k, v) ∈ st ∨ (k = k' ∧ v = v') := by
  induction st with
  | nil =>
    simp [insertKV] at h
    exact Or.inr h
  | cons kv rest ih =>
    obtain ⟨ka, va⟩ := kv
    by_cases hk : ka = k'
    · subst hk
      simp [insertKV] at h
      rcases h with ⟨h1, h2⟩ | h
      · exact Or.inr ⟨h1, h2⟩
      · exact Or.inl (List.mem_cons_of_mem _ h)
    · simp [insertKV, hk] at h
      rcases h with ⟨h1, h2⟩ | h
      · exact Or.inl (by simp [h1, h2])
      · rcases ih h with h | h
        · exact Or.inl (List.mem_cons_of_mem _ h)
        · exact Or.inr h

/-! ## HTML templating (`Template`) and the markdown route (`handle_md`) -/

/-- The fixed message interpolated into the not-found page by
`Template::default`. -/
def notFoundBody : List Char := "<h1>Error 404: Page not found</h1>".toList

/-- `Template` from `src/lib.rs`: the static shell around rendered
bodies, plus the prebuilt not-found page. -/
structure Template where
  before : List Char
  after : List Char
  not_found : List Char

/-- `Template::default`, parameterized by the shell halves obtained from
splitting the bundled `index.html` (an asset outside `src/`). -/
def mkTemplate (before after : List Char) : Template :=
  ⟨before, after, before ++ notFoundBody ++ after⟩

/-- `Template::html`: plain string concatenation of shell and body. -/
def Template.html (t : Template) (s : List Char) : List Char :=
  t.before ++ s ++ t.after

/-- `Api::get_md`: look the cleaned URL up in the store and wrap a hit
in the shell. -/
def get_md (t : Template) (md : Store) (url : List Char) : Option (List Char) :=
  (lookupKV md (clean_url url)).map t.html

/-- `handle_md`: 200 with the wrapped body on a hit, 404 with the fixed
not-found page on a miss. -/
def handle_md (t : Template) (md : Store) (url : List Char) : Nat × List Char :=
  match get_md t md url with
  | some html => (200, html)
  | none => (404, t.not_found)

/-- Claim C7: a markdown request whose derived key is absent yields the
fixed not-found body with status 404, and a present key `v` yields
status 200 with body exactly `before ++ v ++ after`; the lookup is a
total function. -/
theorem handle_md_spec (before after : List Char) (md : Store) (url : List Char) :
    (lookupKV md (clean_url url) = none →
      handle_md (mkTemplate before after) md url = (404, before ++ notFoundBody ++ after)) ∧
    ∀ v, lookupKV md (clean_url url) = some v →
      handle_md (mkTemplate before after) md url = (200, before ++ v ++ after) := by
  constructor
  · intro h
    simp [handle_md, get_md, h, mkTemplate]
  · intro v h
    simp [handle_md, get_md, h, mkTemplate, Template.html]

/-- Witness for C7 at a store holding key `a`: `/a.md` is served with
the shell around its value, and `/b.md` falls to the not-found page. -/
theorem handle_md_spec_witness :
    handle_md (mkTemplate ['<'] ['>']) [(['a'], ['X'])] "/a.md".toList =
      (200, ['<'] ++ ['X'] ++ ['>']) ∧
    handle_md (mkTemplate ['<'] ['>']) [] "/b.md".toList =
      (404, ['<'] ++ notFoundBody ++ ['>']) := by
  constructor
  · exact (handle_md_spec ['<'] ['>'] [(['a'], ['X'])] "/a.md".toList).2 ['X'] (by decide)
  · exact (handle_md_spec ['<'] ['>'] [] "/b.md".toList).1 (by decide)

/-! ## The websocket wait loop (`handle_ws`) -/

/-- Outcome of one round of the `handle_ws` select loop. -/
inductive WsOutcome where
  | closed
  | peerGone
  | refreshSent
deriving DecidableEq

/-- A `tokio::select!` with the `biased` flag: branches are polled in
written order and the first ready branch is taken. -/
def biasedPick {α : Type} : List (Bool × α) → Option α
  | [] => none
  | (b, a) :: rest => if b then some a else biasedPick rest

/-- The select of `handle_ws` as written in the source: server shutdown
first, then the peer-read loop, then the content-update signal. -/
def wsSelect (closedReady peerReady updateReady : Bool) : Option WsOutcome :=
  biasedPick [(closedReady, .closed), (peerReady, .peerGone), (updateReady, .refreshSent)]

/-- Modelled from the spec: the branch priority claimed in §4.6, with a
content change ahead of the peer-read branch. -/
def wsSelectSpec (closedReady peerReady updateReady : Bool) : Option WsOutcome :=
  biasedPick [(closedReady, .closed), (updateReady, .refreshSent), (peerReady, .peerGone)]

/-- Claim C5 (amended): on simultaneous readiness, shutdown takes
precedence over both other branches, and the peer-read branch takes
precedence over a content change. -/
theorem ws_priority (p u : Bool) :
    wsSelect true p u = some .closed ∧
    wsSelect false true u = some .peerGone ∧
    wsSelect false false true = some .refreshSent ∧
    wsSelect false false false = none := by
  cases p <;> cases u <;> exact ⟨rfl, rfl, rfl, rfl⟩

/-- Counterexample for C5 as stated: with the peer-read and update
branches simultaneously ready (and no shutdown), the code takes the
peer-read branch while the spec's priority would take the update
branch. -/
theorem ws_priority_cex :
    wsSelect false true true = some .peerGone ∧
    wsSelectSpec false true true = some .refreshSent := ⟨rfl, rfl⟩

/-! ## Startup initialization (`initialize_md`) -/

/-- One entry of the recursive walk under the base directory, identified
by its path relative to the base. -/
structure DirEntry where
  rel : List Char
  isFile : Bool
  content : Option (List Char)

/-- The base path handed to `initialize_md`: a single regular file or a
directory with its recursively discovered entries. -/
inductive BaseFs where
  | file (content : Option (List Char))
  | dir (entries : List DirEntry)

/-- Error raised when reading a source file fails. -/
inductive InitErr where
  | readFailed
deriving DecidableEq

/-- `write_md_from_file`: read the file (an unreadable file is an
error), then render its text into the output buffer.  The buffer
capacity management in the source has no semantic effect. -/
def write_md_from_file (render : List Char → List Char)
    (content : Option (List Char)) : Except InitErr (List Char) :=
  match content with
  | none => .error .readFailed
  | some text => .ok (render text)

/-- The `filter` closure of `initialize_md`: keep regular files whose
relative path ends in `.md`, keyed by that path minus the suffix. -/
def initItems (entries : List DirEntry) : List (List Char × DirEntry) :=
  entries.filterMap fun e =>
    if e.isFile then (stripSuf ".md".toList e.rel).map fun k => (k, e) else none

/-- The `for` loop of `initialize_md` over the filtered walk: render
each file and insert it; a read failure (the `?` operator) aborts. -/
def initLoop (render : List Char → List Char) :
    List (List Char × DirEntry) → Store → Except InitErr Store
  | [], st => .ok st
  | (k, e) :: rest, st =>
    match write_md_from_file render e.content with
    | .error err => .error err
    | .ok v => initLoop render rest (insertKV st k v)

/-- `initialize_md`: a single file is rendered under the literal key
`index`; a directory is walked, rendering every `.md` file into the
store.  A read failure aborts initialization. -/
def initialize_md (render : List Char → List Char) : BaseFs → Except InitErr Store
  | .file c => (write_md_from_file render c).map fun v => [("index".toList, v)]
  | .dir entries => initLoop render (initItems entries) []

/-- Claim C9: when the base path is a single readable regular file,
initialization produces exactly one entry, keyed by the literal string
`index`, holding the rendered contents of that file. -/
theorem initialize_single_file (render : List Char → List Char) (c : List Char) :
    initialize_md render (.file (some c)) = .ok [("index".toList, render c)] ∧
    lookupKV [("index".toList, render c)] "index".toList = some (render c) := by
  constructor
  · rfl
  · simp [lookupKV]

theorem init_fold_sound (render : List Char → List Char)
    (items : List (List Char × DirEntry)) (st0 st : Store)
    (h : initLoop render items st0 = .ok st) :
    ∀ k v, (k, v) ∈ st →
      (k, v) ∈ st0 ∨ ∃ e, (k, e) ∈ items ∧ ∃ c, e.content = some c ∧ v = render c := by
  induction items generalizing st0 with
  | nil =>
    intro k v hv
    rw [initLoop] at h
    cases h
    exact Or.inl hv
  | cons kv rest ih =>
    obtain ⟨k', e⟩ := kv
    intro k v hv
    rw [initLoop] at h
    cases hc : e.content with
    | none =>
      rw [hc] at h
      simp [write_md_from_file] at h
    | some c =>
      rw [hc] at h
      simp only [write_md_from_file] at h
      rcases ih _ h k v hv with hin | ⟨e', he', hc'⟩
      · rcases mem_insertKV hin with hin0 | ⟨hk, hv'⟩
        · exact Or.inl hin0
        · exact Or.inr ⟨e, by simp [hk], c, hc, hv'⟩
      · exact Or.inr ⟨e', List.mem_cons_of_mem _ he', hc'⟩

/-- Claim C10: in directory mode, every store entry produced by
initialization comes from a regular file whose relative path is the
entry's key followed by `.md`, holding that file's rendered contents; a
regular file without the `.md` suffix is never inserted, even though the
live-update derivation (`pathToKey`) would give it a key. -/
theorem initialize_dir_sound (render : List Char → List Char)
    (entries : List DirEntry) (st : Store)
    (h : initialize_md render (.dir entries) = .ok st) :
    (∀ k v, (k, v) ∈ st →
      ∃ e, e ∈ entries ∧ e.isFile = true ∧ e.rel = k ++ ".md".toList ∧
        ∃ c, e.content = some c ∧ v = render c) ∧
    ∀ base e, e ∈ entries →
      pathToKey base (joinSub base e.rel) = some (clean_url e.rel) := by
  constructor
  · intro k v hv
    rcases init_fold_sound render (initItems entries) [] st h k v hv with hin | ⟨e, he, hc⟩
    · exact absurd hin (List.not_mem_nil _)
    · rcases List.mem_filterMap.mp he with ⟨e', he', hfe⟩
      by_cases hf : e'.isFile
      · rw [if_pos hf] at hfe
        rcases Option.map_eq_some'.mp hfe with ⟨k0, hk0, hpair⟩
        have hee : e' = e := congrArg Prod.snd hpair
        have hkk : k0 = k := congrArg Prod.fst hpair
        subst hee hkk
        exact ⟨e', he', by simpa using hf, stripSuf_eq_some.mp hk0, hc⟩
      · rw [if_neg hf] at hfe
        exact Option.noConfusion hfe
  · intro base e _
    rw [pathToKey, relOf_joinSub, Option.map_some']

/-- Witness for C10 on a directory containing `a.md` and `b.txt`: the
resulting singleton entry traces back to `a.md`. -/
theorem initialize_dir_sound_witness :
    initialize_md id (.dir [⟨"a.md".toList, true, some ['A']⟩, ⟨"b.txt".toList, true, some ['B']⟩]) =
      .ok [(['a'], ['A'])] ∧
    ∃ e, e ∈ [DirEntry.mk "a.md".toList true (some ['A']), ⟨"b.txt".toList, true, some ['B']⟩] ∧
      e.isFile = true ∧ e.rel = ['a'] ++ ".md".toList ∧
      ∃ c, e.content = some c ∧ (['A'] : List Char) = id c := by
  refine ⟨rfl, ?_⟩
  exact (initialize_dir_sound id
    [⟨"a.md".toList, true, some ['A']⟩, ⟨"b.txt".toList, true, some ['B']⟩]
    [(['a'], ['A'])] rfl).1 ['a'] ['A'] (by simp)

/-! ## The invalidation pipeline (`Api::file_update`) -/

/-- The signals watchexec can report to the action handler. -/
inductive WatchSignal where
  | hangup
  | forceStop
  | interrupt
  | quit
  | terminate
  | user1
  | user2
deriving DecidableEq

/-- The stop-signal test of `file_update`
(`Hangup | ForceStop | Interrupt | Quit | Terminate`). -/
def isStopSignal : WatchSignal → Bool
  | .hangup => true
  | .forceStop => true
  | .interrupt => true
  | .quit => true
  | .terminate => true
  | .user1 => false
  | .user2 => false

/-- The filesystem as seen by the server: file test, file read (`none`
models a read error), and path canonicalization (`none` models failure,
in particular a nonexistent path). -/
structure Fsys where
  isFile : List Char → Bool
  readFile : List Char → Option (List Char)
  canonicalize : List Char → Option (List Char)

/-- `lookup.isSome`, the `DashMap` key-presence test. -/
def containsKey (st : Store) (k : List Char) : Bool :=
  (lookupKV st k).isSome

/-- `DashMap::entry(key).or_default()`: materializes an empty entry for
an absent key before anything is written to it. -/
def ensureKey (st : Store) (k : List Char) : Store :=
  if containsKey st k then st else st ++ [(k, [])]

/-- The `filter` closure of `file_update` followed by the `HashSet`
collection: keep files, key them by the stripped and cleaned relative
path, and deduplicate the `(path, key)` pairs. -/
def updateItems (isFile : List Char → Bool) (base : List Char)
    (paths : List (List Char)) : List (List Char × List Char) :=
  (paths.filterMap fun p =>
    if isFile p then (relOf base p).map fun rel => (p, clean_url rel) else none).dedup

/-- Result of one `file_update` call: the store contents, whether the
update signal was fired, whether a graceful stop was requested, and
whether the call returned an error. -/
structure UpdateResult where
  store : Store
  notified : Bool
  stopped : Bool
  errored : Bool

/-- The `for` loop of `file_update`: each item's entry is materialized
(`or_default`), then re-rendered from the file; a read failure (`?`)
aborts the loop before the notification point, otherwise the update
signal fires exactly when the socket count is nonzero. -/
def processItems (fs : Fsys) (render : List Char → List Char) (sockets : Nat) :
    List (List Char × List Char) → Store → UpdateResult
  | [], st => ⟨st, sockets != 0, false, false⟩
  | (p, k) :: rest, st =>
    let st1 := ensureKey st k
    match fs.readFile p with
    | none => ⟨st1, false, false, true⟩
    | some text => processItems fs render sockets rest (insertKV st1 k (render text))

/-- `Api::file_update`: a stop signal short-circuits into a graceful
quit; otherwise the deduplicated batch is processed. -/
def file_update (fs : Fsys) (render : List Char → List Char) (base : List Char)
    (sockets : Nat) (signals : List WatchSignal) (paths : List (List Char))
    (st : Store) : UpdateResult :=
  if signals.any isStopSignal then ⟨st, false, true, false⟩
  else processItems fs render sockets (updateItems fs.isFile base paths) st

/-- Every read in the batch succeeds. -/
def readsOk (fs : Fsys) (items : List (List Char × List Char)) : Bool :=
  items.all fun i => (fs.readFile i.1).isSome

theorem processItems_notified (fs : Fsys) (render : List Char → List Char)
    (sockets : Nat) (items : List (List Char × List Char)) (st : Store) :
    (processItems fs render sockets items st).notified =
      (readsOk fs items && sockets != 0) := by
  induction items generalizing st with
  | nil => simp [processItems, readsOk]
  | cons i rest ih =>
    obtain ⟨p, k⟩ := i
    rw [processItems]
    cases hr : fs.readFile p with
    | none => simp [readsOk, hr]
    | some text => simp [readsOk, hr, ih]

/-- Claim C1 (amended): the change signal fires at most once per batch,
and it fires exactly when the batch carries no stop signal, every
deduplicated entry's read succeeded, and the socket count is nonzero —
regardless of whether any entry was actually applied. -/
theorem file_update_notify (fs : Fsys) (render : List Char → List Char)
    (base : List Char) (sockets : Nat) (signals : List WatchSignal)
    (paths : List (List Char)) (st : Store) :
    (file_update fs render base sockets signals paths st).notified =
      (!signals.any isStopSignal &&
        readsOk fs (updateItems fs.isFile base paths) && sockets != 0) := by
  unfold file_update
  cases hs : signals.any isStopSignal with
  | true => simp [hs]
  | false => simp [hs, processItems_notified]

/-- A filesystem with no files and no readable paths. -/
def fs0 : Fsys where
  isFile := fun _ => false
  readFile := fun _ => none
  canonicalize := fun _ => none

/-- Counterexample for C1 as stated: a stop-free batch whose single
event is filtered out (not a file) applies no entry at all, yet with one
listener attached the signal still fires. -/
theorem file_update_notify_cex :
    (file_update fs0 id "/r".toList 1 [] ["/r/x.md".toList] []).notified = true ∧
    (file_update fs0 id "/r".toList 1 [] ["/r/x.md".toList] []).store = [] :=
  ⟨rfl, rfl⟩

/-- The effect of the loop body on items whose read succeeds: the entry
is materialized and overwritten with the freshly rendered contents. -/
def applyOk (fs : Fsys) (render : List Char → List Char)
    (items : List (List Char × List Char)) (st : Store) : Store :=
  items.foldl
    (fun acc i => insertKV (ensureKey acc i.2) i.2 (render ((fs.readFile i.1).getD []))) st

theorem processItems_abort (fs : Fsys) (render : List Char → List Char)
    (sockets : Nat) (st : Store) (pre post : List (List Char × List Char))
    (bad : List Char × List Char)
    (h1 : ∀ i ∈ pre, (fs.readFile i.1).isSome = true)
    (h2 : fs.readFile bad.1 = none) :
    processItems fs render sockets (pre ++ bad :: post) st =
      ⟨ensureKey (applyOk fs render pre st) bad.2, false, false, true⟩ := by
  induction pre generalizing st with
  | nil =>
    obtain ⟨p, k⟩ := bad
    rw [List.nil_append, processItems, h2]
    rfl
  | cons i rest ih =>
    obtain ⟨p, k⟩ := i
    have hp : (fs.readFile p).isSome = true := h1 (p, k) (List.mem_cons_self _ _)
    rcases Option.isSome_iff_exists.mp hp with ⟨text, htext⟩
    rw [List.cons_append, processItems, htext]
    dsimp only
    rw [ih _ fun i hi => h1 i (List.mem_cons_of_mem _ hi)]
    have happly : applyOk fs render ((p, k) :: rest) st =
        applyOk fs render rest (insertKV (ensureKey st k) k (render text)) := by
      simp [applyOk, htext]
    rw [happly]

/-- Claim C2 (amended): a read failure on one file of a stop-free batch
aborts the loop — the items after it in iteration order are not
processed, the error is returned (to be logged by the watcher callback),
and the change signal is skipped; the failing file's entry keeps its
pre-batch value when its key was already present, but a previously
absent key is materialized with an empty rendered value. -/
theorem file_update_abort (fs : Fsys) (render : List Char → List Char)
    (base : List Char) (sockets : Nat) (signals : List WatchSignal)
    (paths : List (List Char)) (st : Store)
    (pre post : List (List Char × List Char)) (bad : List Char × List Char)
    (hs : signals.any isStopSignal = false)
    (hitems : updateItems fs.isFile base paths = pre ++ bad :: post)
    (h1 : ∀ i ∈ pre, (fs.readFile i.1).isSome = true)
    (h2 : fs.readFile bad.1 = none) :
    file_update fs render base sockets signals paths st =
      ⟨ensureKey (applyOk fs render pre st) bad.2, false, false, true⟩ := by
  unfold file_update
  rw [hs, if_neg (by simp), hitems]
  exact processItems_abort fs render sockets st pre post bad h1 h2

/-- A root `/r` with an unreadable `a.md` and a readable `b.md`. -/
def fs1 : Fsys where
  isFile := fun _ => true
  readFile := fun p => if p = "/r/b.md".toList then some ['B'] else none
  canonicalize := fun _ => none

/-- Witness for C2 (amended) on a concrete two-file batch whose first
item is unreadable. -/
theorem file_update_abort_witness :
    fs1.readFile "/r/a.md".toList = none ∧
    file_update fs1 id "/r".toList 1 [] ["/r/a.md".toList, "/r/b.md".toList] [] =
      ⟨ensureKey (applyOk fs1 id [] []) ['a'], false, false, true⟩ := by
  refine ⟨by decide, ?_⟩
  exact file_update_abort fs1 id "/r".toList 1 [] ["/r/a.md".toList, "/r/b.md".toList] []
    [] [("/r/b.md".toList, ['b'])] ("/r/a.md".toList, ['a'])
    rfl (by decide) (by simp) (by decide)

/-- Counterexample for C2 as stated: after the same batch, the readable
file `b.md` was never processed (its key is absent), while the failing
file's previously absent key now holds the empty document; the call
reported an error. -/
theorem file_update_abort_cex :
    (file_update fs1 id "/r".toList 1 [] ["/r/a.md".toList, "/r/b.md".toList] []).errored
      = true ∧
    lookupKV (file_update fs1 id "/r".toList 1 [] ["/r/a.md".toList, "/r/b.md".toList] []).store
      ['b'] = none ∧
    fs1.readFile "/r/b.md".toList = some ['B'] ∧
    lookupKV (file_update fs1 id "/r".toList 1 [] ["/r/a.md".toList, "/r/b.md".toList] []).store
      ['a'] = some [] := by
  refine ⟨?_, ?_, by decide, ?_⟩ <;> decide

/-! ## Root reconfiguration (the console `set path` / `set index` command) -/

/-- The mutable server state touched by the console: base path, index
route, and the content store. -/
structure ApiState where
  base : List Char
  index : List Char
  md : Store

/-- Errors of `set_path` (`bail!` / `ensure!` / `?` sites). -/
inductive SetErr where
  | expectPathOrIndex
  | emptyPath
  | canonFailed
  | notSubpath
deriving DecidableEq

/-- Result of one console command: the returned `Result<bool>`, the
server state, and the watcher's pathset. -/
structure CmdResult where
  res : Except SetErr Bool
  api : ApiState
  ps : List (List Char)

/-- The two variants of the local `enum Kind` in `set_path`. -/
inductive SetKind where
  | path
  | index

/-- Rust `str::trim`. -/
def trimL (l : List Char) : List Char :=
  ((l.dropWhile Char.isWhitespace).reverse.dropWhile Char.isWhitespace).reverse

/-- The shared tail of `set_path` after command parsing: trim the
argument, reject an empty one, canonicalize (which fails on a
nonexistent path), then either swap the watch pathset and base, or
re-derive and swap the index route. -/
def set_path_apply (fs : Fsys) (api : ApiState) (ps : List (List Char))
    (kind : SetKind) (p0 : List Char) : CmdResult :=
  let p := trimL p0
  if p = [] then ⟨.error .emptyPath, api, ps⟩
  else
    match fs.canonicalize p with
    | none => ⟨.error .canonFailed, api, ps⟩
    | some cp =>
      match kind with
      | .path => ⟨.ok true, { api with base := cp }, [cp]⟩
      | .index =>
        match relOf api.base cp with
        | none => ⟨.error .notSubpath, api, ps⟩
        | some rel => ⟨.ok true, { api with index := rel }, ps⟩

/-- `set_path` from `src/lib.rs`, command parsing included (note the
source quirk that the `sp` / `si` abbreviations pass the whole input
through as the path argument). -/
def set_path (fs : Fsys) (api : ApiState) (ps : List (List Char))
    (s : List Char) : CmdResult :=
  match stripPre "set".toList s with
  | some rest =>
    match stripPre "path".toList (trimL rest) with
    | some p => set_path_apply fs api ps .path p
    | none =>
      match stripPre "index".toList (trimL rest) with
      | some p => set_path_apply fs api ps .index p
      | none => ⟨.error .expectPathOrIndex, api, ps⟩
  | none =>
    if s.take 2 = "sp".toList then set_path_apply fs api ps .path s
    else if s.take 2 = "si".toList then set_path_apply fs api ps .index s
    else ⟨.ok false, api, ps⟩

/-- Claim C3 (amended): a successful `set path` swaps the watcher
pathset and the base path but performs no rescan and no store rebuild —
the content store is left exactly as it was. -/
theorem set_path_keeps_store (fs : Fsys) (api : ApiState) (ps : List (List Char))
    (s rest p cp : List Char)
    (hset : stripPre "set".toList s = some rest)
    (hpath : stripPre "path".toList (trimL rest) = some p)
    (hne : trimL p ≠ [])
    (hcanon : fs.canonicalize (trimL p) = some cp) :
    set_path fs api ps s = ⟨.ok true, { api with base := cp }, [cp]⟩ ∧
    (set_path fs api ps s).api.md = api.md := by
  have h : set_path fs api ps s = set_path_apply fs api ps .path p := by
    rw [set_path, hset]
    dsimp only
    rw [hpath]
  have h2 : set_path_apply fs api ps .path p =
      ⟨.ok true, { api with base := cp }, [cp]⟩ := by
    rw [set_path_apply]
    simp only [if_neg hne, hcanon]
  rw [h, h2]
  exact ⟨rfl, rfl⟩

/-- A filesystem in which only the directory `/new` exists. -/
def fs2 : Fsys where
  isFile := fun _ => false
  readFile := fun _ => none
  canonicalize := fun p => if p = "/new".toList then some "/new".toList else none

/-- Server state serving `/old` with one cached document under key `a`. -/
def api1 : ApiState where
  base := "/old".toList
  index := "index.md".toList
  md := [(['a'], ['A'])]

/-- Witness for C3 (amended): `set path /new` succeeds and the store is
untouched. -/
theorem set_path_keeps_store_witness :
    set_path fs2 api1 ["/old".toList] "set path /new".toList =
      ⟨.ok true, { api1 with base := "/new".toList }, ["/new".toList]⟩ ∧
    (set_path fs2 api1 ["/old".toList] "set path /new".toList).api.md = api1.md := by
  exact set_path_keeps_store fs2 api1 ["/old".toList] "set path /new".toList
    " path /new".toList " /new".toList "/new".toList rfl (by decide) (by decide) (by decide)

/-- Counterexample for C3 as stated: after a successful `set path` to a
root containing the (readable) document `b.md`, the store still holds
only the old entry `a` and differs from the rendered documents
discovered under the new root. -/
theorem set_path_rescan_cex :
    (set_path fs2 api1 ["/old".toList] "set path /new".toList).res = .ok true ∧
    (set_path fs2 api1 ["/old".toList] "set path /new".toList).api.md = [(['a'], ['A'])] ∧
    initialize_md id (.dir [⟨"b.md".toList, true, some ['B']⟩]) = .ok [(['b'], ['B'])] ∧
    ([(['a'], ['A'])] : Store) ≠ [(['b'], ['B'])] := by
  exact ⟨rfl, rfl, rfl, by decide⟩

/-- Claim C6: `set path` to a path whose canonicalization fails (in
particular a nonexistent one) returns a path error and leaves base,
index, store and watcher pathset fully intact, so every previously
served key still resolves identically. -/
theorem set_path_error_intact (fs : Fsys) (t : Template) (api : ApiState)
    (ps : List (List Char)) (s rest p : List Char)
    (hset : stripPre "set".toList s = some rest)
    (hpath : stripPre "path".toList (trimL rest) = some p)
    (hne : trimL p ≠ [])
    (hcanon : fs.canonicalize (trimL p) = none) :
    set_path fs api ps s = ⟨.error .canonFailed, api, ps⟩ ∧
    ∀ url, get_md t (set_path fs api ps s).api.md url = get_md t api.md url := by
  have h : set_path fs api ps s = set_path_apply fs api ps .path p := by
    rw [set_path, hset]
    dsimp only
    rw [hpath]
  have h2 : set_path_apply fs api ps .path p = ⟨.error .canonFailed, api, ps⟩ := by
    rw [set_path_apply]
    simp only [if_neg hne, hcanon]
  rw [h, h2]
  exact ⟨rfl, fun url => rfl⟩

/-- Witness for C6: `set path /nope` on `fs2` fails with the
canonicalization error and the previously served `/a.md` still resolves
to the same page. -/
theorem set_path_error_intact_witness :
    set_path fs2 api1 ["/old".toList] "set path /nope".toList =
      ⟨.error .canonFailed, api1, ["/old".toList]⟩ ∧
    get_md (mkTemplate ['<'] ['>'])
        (set_path fs2 api1 ["/old".toList] "set path /nope".toList).api.md "/a.md".toList =
      get_md (mkTemplate ['<'] ['>']) api1.md "/a.md".toList := by
  have h := set_path_error_intact fs2 (mkTemplate ['<'] ['>']) api1 ["/old".toList]
    "set path /nope".toList " path /nope".toList " /nope".toList
    rfl (by decide) (by decide) (by decide)
  exact ⟨h.1, h.2 "/a.md".toList⟩
